import Mathlib

/-!
Verification of the nokhwa camera library core: the format negotiation
algorithm (`nokhwa-core/src/format_request.rs`, `types.rs`,
`frame_format.rs`, the V4L2 fourcc table in
`nokhwa-bindings-linux/src/v4l2.rs`) and the pixel transcoding engine
(`nokhwa-core/src/pixel_format.rs`), shallowly embedded in Lean.

Conventions of the embedding:
* Rust `u32` values are natural numbers together with explicit `% 2^32`
  wrapping at the operations where the source can overflow (release-mode
  semantics; debug builds would panic at exactly the wrapping inputs).
* Fallible Rust code returns `Res α`: `.ok` for success, `.nokhwaError`
  for a recoverable `Err`, and `.panik` for an abrupt panic
  (failed `assert!`, out-of-bounds index, `Vec::remove` on an empty
  vector, `copy_from_slice` length mismatch).
* Byte buffers are `List ℕ`; an in-place Rust write `buf[i] = v` becomes
  `List.set`, guarded by an explicit bounds check wherever the source
  index is not provably in range.
* `for` loops become structural recursion on the trip count, executing
  the same bodies in the same order.
* `f32` values arising in the Closest-strategy cost are modelled as
  exact rationals (`ℚ`); every concrete input used in a theorem below
  keeps all intermediate values small integers, where `f32` arithmetic
  is exact, so the abstraction is faithful at those inputs.
-/

/-- Result of running a piece of Rust code: normal return, recoverable
error (a `NokhwaError` carried as its message text), or a panic. -/
inductive Res (α : Type) where
  | ok : α → Res α
  | nokhwaError : String → Res α
  | panik : String → Res α
deriving DecidableEq

instance : Monad Res where
  pure := Res.ok
  bind m f := match m with
    | .ok a => f a
    | .nokhwaError e => .nokhwaError e
    | .panik e => .panik e

/-- Checked read `l[i]` of a Rust slice: panics when out of bounds. -/
def getB (l : List ℕ) (i : ℕ) : Res ℕ :=
  match l[i]? with
  | some a => .ok a
  | none => .panik "index out of bounds"

/-- Checked write `l[i] = v` of a Rust slice: panics when out of bounds. -/
def setB (l : List ℕ) (i : ℕ) (v : ℕ) : Res (List ℕ) :=
  if i < l.length then .ok (l.set i v) else .panik "index out of bounds"

/-- The `u32` modulus. -/
def u32Mod : ℕ := 2 ^ 32

/-- Wrapping `u32` subtraction `a - b` (release-mode semantics). -/
def wsub (a b : ℕ) : ℕ := (a % u32Mod + (u32Mod - b % u32Mod)) % u32Mod

/-- Wrapping `u32` squaring, as in `.pow(2)` (release-mode semantics). -/
def wsq (a : ℕ) : ℕ := a * a % u32Mod

/-- Wrapping `u32` addition (release-mode semantics). -/
def wadd (a b : ℕ) : ℕ := (a + b) % u32Mod

/-- `Resolution` from `types.rs`: width and height, `u32` each. -/
structure Resolution where
  width_x : ℕ
  height_y : ℕ
deriving DecidableEq

def Resolution.width (r : Resolution) : ℕ := r.width_x

def Resolution.height (r : Resolution) : ℕ := r.height_y

def Resolution.x (r : Resolution) : ℕ := r.width_x

def Resolution.y (r : Resolution) : ℕ := r.height_y

/-- `impl Distance<u32> for Resolution` from `types.rs`:
`(x2 - x1).pow(2) + (y2 - y1).pow(2)` in plain `u32` arithmetic. -/
def Resolution.distance_from (self other : Resolution) : ℕ :=
  wadd (wsq (wsub other.x self.x)) (wsq (wsub other.y self.y))

/-- Modelled from the spec: the distance metric as the spec mandates it,
sum of squared per-axis differences in widened (here: integer)
arithmetic, never wrapping or panicking. -/
def distance_from_spec (self other : Resolution) : ℤ :=
  ((other.x : ℤ) - self.x) ^ 2 + ((other.y : ℤ) - self.y) ^ 2

/-- Source-order comparison of `Resolution` (`impl Ord`): by width,
then by height. -/
def Resolution.cmp (a b : Resolution) : Ordering :=
  match compare a.x b.x with
  | .lt => .lt
  | .eq => compare a.y b.y
  | .gt => .gt

/-- `Rational32` (num-rational `Ratio<i32>`), as used through
`new_raw`: a numerator and a denominator, not normalised. -/
structure Rational32 where
  numer : ℤ
  denom : ℤ
deriving DecidableEq

/-- Exact value of a ratio, denominators assumed nonzero at use sites. -/
def Rational32.val (r : Rational32) : ℚ := (r.numer : ℚ) / (r.denom : ℚ)

/-- `FrameRate` from `types.rs`: a `Rational32` wrapper. -/
structure FrameRate where
  rational : Rational32
deriving DecidableEq

/-- `FrameRate::new(numerator: i32, denominator: NonZeroI32)`: builds the
ratio with `Rational32::new_raw`. The `NonZeroI32` argument is the
subtype of nonzero integers; no further validation happens and the
function cannot fail. -/
def FrameRate.new (numerator : ℤ) (denominator : {d : ℤ // d ≠ 0}) : FrameRate :=
  ⟨⟨numerator, denominator.val⟩⟩

/-- `FrameRate::frame_rate(fps: i32)`: denominator 1. -/
def FrameRate.frame_rate (fps : ℤ) : FrameRate := ⟨⟨fps, 1⟩⟩

def FrameRate.numerator (f : FrameRate) : ℤ := f.rational.numer

def FrameRate.denominator (f : FrameRate) : ℤ := f.rational.denom

/-- `impl From<Rational32> for FrameRate`: accepts any ratio verbatim. -/
def FrameRate.fromRational (r : Rational32) : FrameRate := ⟨r⟩

/-- Exact rational value of a frame rate (`approximate_float` modelled
exactly; the `f32` division rounding is abstracted away). -/
def FrameRate.val (f : FrameRate) : ℚ := f.rational.val

/-- Exact rational comparison of frame rates. num-rational's `Ord` is
exact rational comparison; this model is faithful for positive
denominators (every value the theorems below construct). -/
def FrameRate.cmp (a b : FrameRate) : Ordering :=
  compare a.val b.val

/-- Claim C3: the claim states that `Resolution::distance_from` equals
the widened sum of squared per-axis differences on every input pair,
without panicking or wrapping. The code computes `(x2 - x1).pow(2) +
(y2 - y1).pow(2)` in `u32`: at `self = (0,0)`, `other = (65536,0)` the
square of 65536 wraps to 0 (release mode; a debug build panics on the
same multiplication), while the value the claim specifies is `2^32`. -/
theorem distance_from_wraps_at_65536 :
    Resolution.distance_from ⟨0, 0⟩ ⟨65536, 0⟩ = 0 ∧
    distance_from_spec ⟨0, 0⟩ ⟨65536, 0⟩ = 4294967296 := by
  constructor
  · decide
  · norm_num [distance_from_spec, Resolution.x, Resolution.y]

/-- Claim C4: the claim states that every `FrameRate` construction path
rejects a zero or negative denominator with a recoverable error. In the
code, `FrameRate::new` takes a `NonZeroI32` and returns a `FrameRate`
directly — a denominator of `-1` is accepted and no error path exists —
and `impl From<Rational32> for FrameRate` accepts even a denominator of
0 (built with `Rational32::new_raw`). -/
theorem frameRate_construction_accepts_nonpositive_denominator :
    (FrameRate.new 30 ⟨-1, by decide⟩).rational.denom = -1 ∧
    (FrameRate.fromRational ⟨1, 0⟩).rational.denom = 0 := by
  constructor
  · rfl
  · rfl

/-- Payload of the `Custom` escape variant: `[u8; 8]`. -/
structure U8x8 where
  b0 : ℕ
  b1 : ℕ
  b2 : ℕ
  b3 : ℕ
  b4 : ℕ
  b5 : ℕ
  b6 : ℕ
  b7 : ℕ
deriving DecidableEq

/-- A raw V4L2 fourcc code: `[u8; 4]`. -/
abbrev FourCC := ℕ × ℕ × ℕ × ℕ

/-- `FrameFormat` from `frame_format.rs`, in declaration order, with the
`Custom` escape variant carrying eight raw bytes. -/
inductive FrameFormat where
  | H265 | H264 | Avc1 | H263 | Av1 | Mpeg1 | Mpeg2 | Mpeg4 | MJpeg | XVid | VP8 | VP9
  | Ayuv444
  | Yuyv422 | Uyvy422 | Yvyu422 | Yv12
  | Nv12 | Nv21 | I420
  | Yvu9
  | Luma8 | Luma16
  | Depth16
  | Rgb332 | Rgb555 | Rgb565 | Rgb888 | RgbA8888 | ARgb8888
  | Bayer8 | Bayer16
  | Custom (cv : U8x8)
deriving DecidableEq

/-- Discriminant of a `FrameFormat` in declaration order, as used by the
derived Rust `Ord`. -/
def FrameFormat.tag : FrameFormat → ℕ
  | .H265 => 0 | .H264 => 1 | .Avc1 => 2 | .H263 => 3 | .Av1 => 4 | .Mpeg1 => 5
  | .Mpeg2 => 6 | .Mpeg4 => 7 | .MJpeg => 8 | .XVid => 9 | .VP8 => 10 | .VP9 => 11
  | .Ayuv444 => 12 | .Yuyv422 => 13 | .Uyvy422 => 14 | .Yvyu422 => 15 | .Yv12 => 16
  | .Nv12 => 17 | .Nv21 => 18 | .I420 => 19 | .Yvu9 => 20 | .Luma8 => 21
  | .Luma16 => 22 | .Depth16 => 23 | .Rgb332 => 24 | .Rgb555 => 25 | .Rgb565 => 26
  | .Rgb888 => 27 | .RgbA8888 => 28 | .ARgb8888 => 29 | .Bayer8 => 30
  | .Bayer16 => 31 | .Custom _ => 32

/-- Lexicographic comparison of `[u8; 8]` payloads (derived array Ord). -/
def U8x8.cmp (a b : U8x8) : Ordering :=
  (compare a.b0 b.b0).then ((compare a.b1 b.b1).then ((compare a.b2 b.b2).then
    ((compare a.b3 b.b3).then ((compare a.b4 b.b4).then ((compare a.b5 b.b5).then
      ((compare a.b6 b.b6).then (compare a.b7 b.b7)))))))

/-- Derived `Ord` of `FrameFormat`: by variant order, payloads of two
`Custom` values lexicographically. -/
def FrameFormat.cmp (a b : FrameFormat) : Ordering :=
  match a, b with
  | .Custom x, .Custom y => U8x8.cmp x y
  | _, _ => compare a.tag b.tag

/-- `CameraFormat` from `types.rs`: resolution, frame format, frame rate. -/
structure CameraFormat where
  resolution : Resolution
  format : FrameFormat
  frame_rate : FrameRate
deriving DecidableEq

/-- Derived lexicographic `Ord` of `CameraFormat`, in field order
(resolution, format, frame rate). -/
def CameraFormat.cmp (a b : CameraFormat) : Ordering :=
  (Resolution.cmp a.resolution b.resolution).then
    ((FrameFormat.cmp a.format b.format).then
      (FrameRate.cmp a.frame_rate b.frame_rate))

/-- Total preorder used by the ascending sorts, `cmp ≠ Greater`. -/
def cameraFormatLe (a b : CameraFormat) : Bool :=
  match CameraFormat.cmp a b with
  | .gt => false
  | _ => true

/-- Stable insertion of `x` after every already-placed element `y` with
`le y x`. -/
def insertLe {α : Type} (le : α → α → Bool) (x : α) : List α → List α
  | [] => [x]
  | y :: ys => if le y x then y :: insertLe le x ys else x :: y :: ys

/-- Stable ascending sort (insertion sort); models the stable sorts
`slice::sort` and `sort_by` of the source: any stable sort with the same
total preorder produces the same list. -/
def stableSort {α : Type} (le : α → α → Bool) (l : List α) : List α :=
  l.foldl (fun acc x => insertLe le x acc) []

def Resolution.leB (a b : Resolution) : Bool :=
  match Resolution.cmp a b with
  | .gt => false
  | _ => true

def FrameRate.leB (a b : FrameRate) : Bool := decide (a.val ≤ b.val)

/-- Modelled from the spec: the `ranges` module (`Range<T>`,
`ValidatableRange`) is not among the provided sources. Per the spec a
request range carries strategy targets: optional bounds and a preferred
value; `validate` succeeds exactly when the value lies within the
requested range and `preferred` returns the preferred value. -/
structure ResolutionRange where
  lower : Option Resolution
  upper : Option Resolution
  pref : Resolution
deriving DecidableEq

def ResolutionRange.preferred (r : ResolutionRange) : Resolution := r.pref

def ResolutionRange.validate (r : ResolutionRange) (x : Resolution) : Bool :=
  (match r.lower with
   | some lo => Resolution.leB lo x
   | none => true) &&
  (match r.upper with
   | some hi => Resolution.leB x hi
   | none => true)

/-- Modelled from the spec: frame-rate counterpart of `ResolutionRange`
(the `ranges` module is not among the provided sources). -/
structure FrameRateRange where
  lower : Option FrameRate
  upper : Option FrameRate
  pref : FrameRate
deriving DecidableEq

def FrameRateRange.preferred (r : FrameRateRange) : FrameRate := r.pref

def FrameRateRange.validate (r : FrameRateRange) (x : FrameRate) : Bool :=
  (match r.lower with
   | some lo => FrameRate.leB lo x
   | none => true) &&
  (match r.upper with
   | some hi => FrameRate.leB x hi
   | none => true)

/-- `FormatRequest` from `format_request.rs`. -/
inductive FormatRequest where
  | Closest (resolution : Option ResolutionRange) (frame_rate : Option FrameRateRange)
      (frame_format : List FrameFormat)
  | HighestFrameRate (frame_rate : FrameRateRange) (frame_format : List FrameFormat)
  | HighestResolution (resolution : ResolutionRange) (frame_format : List FrameFormat)
  | Exact (resolution : Resolution) (frame_rate : FrameRate) (frame_format : List FrameFormat)

/-- `FormatRequest::sort_formats`. The Closest arm computes, per
candidate surviving the frame-format filter, the cost
`frame_rate_distance + resolution_point_distance` (an `f32` in the
source, modelled as an exact rational; `approximate_float` of the
reduced rational difference is `|a - b|` exactly up to `f32` rounding)
and sorts ascending by cost with `sort_by`, which is stable; the three
other arms filter and sort ascending by the derived lexicographic
`Ord` of `CameraFormat`. -/
def FormatRequest.sort_formats (req : FormatRequest) (list_of_formats : List CameraFormat) :
    List CameraFormat :=
  if list_of_formats.isEmpty then []
  else
    match req with
    | .Closest resolution frame_rate frame_format =>
      let resolution_point := resolution.map ResolutionRange.preferred
      let frame_rate_point := frame_rate.map FrameRateRange.preferred
      let distances := (list_of_formats.filter (fun x => frame_format.contains x.format)).map
        (fun fmt =>
          let frame_rate_distance : ℚ :=
            match frame_rate_point with
            | some f_point => |(fmt.frame_rate.val - f_point.val : ℚ)|
            | none => 0
          let resolution_point_distance : ℚ :=
            match resolution_point with
            | some res_pt => (fmt.resolution.distance_from res_pt : ℚ)
            | none => 0
          (frame_rate_distance + resolution_point_distance, fmt))
      (stableSort (fun a b => decide (a.1 ≤ b.1)) distances).map Prod.snd
    | .HighestFrameRate frame_rate frame_format =>
      stableSort cameraFormatLe
        (list_of_formats.filter
          (fun x => frame_format.contains x.format && frame_rate.validate x.frame_rate))
    | .HighestResolution resolution frame_format =>
      stableSort cameraFormatLe
        (list_of_formats.filter
          (fun x => frame_format.contains x.format && resolution.validate x.resolution))
    | .Exact resolution frame_rate frame_format =>
      stableSort cameraFormatLe
        (list_of_formats.filter
          (fun x => frame_format.contains x.format && decide (resolution = x.resolution)
            && decide (frame_rate = x.frame_rate)))

/-- `FormatRequest::resolve`: returns `None` for an empty candidate
list, otherwise `sort_formats(..).remove(0)` — `Vec::remove` panics when
the sorted (filtered) vector is empty. -/
def FormatRequest.resolve (req : FormatRequest) (list_of_formats : List CameraFormat) :
    Res (Option CameraFormat) :=
  if list_of_formats.isEmpty then .ok none
  else
    match req.sort_formats list_of_formats with
    | [] => .panik "removal index (is 0) should be < len (is 0)"
    | x :: _ => .ok (some x)

/-- Claim C1: the claim states that a Highest-Resolution request
resolves to the maximum in-range resolution (ties by maximum frame
rate). The code sorts ascending and `resolve` takes element 0, hence
returns the minimum: with candidates 100×100 and 200×200, both passing
an unconstrained range and the allowed-format filter, it returns the
100×100 candidate, not the 200×200 one the claim specifies. -/
theorem resolve_highestResolution_returns_minimum :
    FormatRequest.resolve
      (.HighestResolution ⟨none, none, ⟨0, 0⟩⟩ [.Yuyv422])
      [⟨⟨100, 100⟩, .Yuyv422, FrameRate.frame_rate 30⟩,
       ⟨⟨200, 200⟩, .Yuyv422, FrameRate.frame_rate 30⟩]
    = .ok (some ⟨⟨100, 100⟩, .Yuyv422, FrameRate.frame_rate 30⟩) := by
  decide

/-- Claim C2: the claim states `resolve` returns `None` whenever the
list is empty or no candidate satisfies the filter. For a non-empty
list in which every candidate fails the filter (here: an empty
allowed-format set), `sort_formats` yields an empty vector and
`resolve` calls `Vec::remove(0)` on it, which panics instead of
returning `None`. -/
theorem resolve_panics_when_filter_empties_list :
    FormatRequest.resolve
      (.Exact ⟨640, 480⟩ (FrameRate.frame_rate 30) [])
      [⟨⟨640, 480⟩, .Yuyv422, FrameRate.frame_rate 30⟩]
    = .panik "removal index (is 0) should be < len (is 0)" := by
  decide

/-- Claim C6: the claim states a Closest request resolves to the
candidate minimising true resolution distance plus frame-rate
difference. Because `distance_from` wraps in `u32`, the candidate
65536×0 has computed distance 0 from the preferred point 0×0 (true
distance `2^32`) while candidate 1×0 has computed distance 1 (its true
distance), so resolve returns the 65536×0 candidate even though the
claim specifies the 1×0 candidate (listed first; no tie is involved). -/
theorem resolve_closest_returns_wrapped_distance_candidate :
    FormatRequest.resolve
      (.Closest (some ⟨none, none, ⟨0, 0⟩⟩) none [.Yuyv422])
      [⟨⟨1, 0⟩, .Yuyv422, FrameRate.frame_rate 30⟩,
       ⟨⟨65536, 0⟩, .Yuyv422, FrameRate.frame_rate 30⟩]
    = .ok (some ⟨⟨65536, 0⟩, .Yuyv422, FrameRate.frame_rate 30⟩) ∧
    distance_from_spec ⟨65536, 0⟩ ⟨0, 0⟩ = 4294967296 ∧
    distance_from_spec ⟨1, 0⟩ ⟨0, 0⟩ = 1 := by
  refine ⟨?_, ?_, ?_⟩
  · norm_num [FormatRequest.resolve, FormatRequest.sort_formats, stableSort, insertLe,
      Resolution.distance_from, wadd, wsq, wsub, u32Mod, Resolution.x, Resolution.y,
      ResolutionRange.preferred, List.filter, List.foldl, List.contains]
  · norm_num [distance_from_spec, Resolution.x, Resolution.y]
  · norm_num [distance_from_spec, Resolution.x, Resolution.y]

/-- `func_u8_8_to_fcc` from `v4l2.rs`: keep the first four bytes. -/
def func_u8_8_to_fcc (u8_8 : U8x8) : FourCC := (u8_8.b0, u8_8.b1, u8_8.b2, u8_8.b3)

/-- `func_fcc_to_u8_8` from `v4l2.rs`: zero-pad to eight bytes. -/
def func_fcc_to_u8_8 (u8_4 : FourCC) : U8x8 :=
  ⟨u8_4.1, u8_4.2.1, u8_4.2.2.1, u8_4.2.2.2, 0, 0, 0, 0⟩

/-- The `define_back_and_fourth_frame_format!` table from `v4l2.rs`, in
source order, with each fourcc spelled as its four ASCII byte values. -/
def fourccTable : List (FrameFormat × FourCC) :=
  [(.H265, (72, 69, 86, 67)),      -- HEVC
   (.H264, (72, 50, 54, 52)),      -- H264
   (.H263, (72, 50, 54, 51)),      -- H263
   (.Av1, (65, 86, 49, 70)),       -- AV1F
   (.Avc1, (65, 86, 67, 49)),      -- AVC1
   (.Mpeg1, (77, 80, 71, 49)),     -- MPG1
   (.Mpeg2, (77, 80, 71, 50)),     -- MPG2
   (.Mpeg4, (77, 80, 71, 52)),     -- MPG4
   (.MJpeg, (77, 74, 80, 71)),     -- MJPG
   (.XVid, (88, 86, 73, 68)),      -- XVID
   (.VP8, (86, 80, 56, 48)),       -- VP80
   (.VP9, (86, 80, 57, 48)),       -- VP90
   (.Ayuv444, (65, 89, 85, 86)),   -- AYUV
   (.Yuyv422, (89, 85, 89, 86)),   -- YUYV
   (.Uyvy422, (85, 89, 86, 89)),   -- UYVY
   (.Yvyu422, (89, 86, 89, 85)),   -- YVYU
   (.Nv12, (78, 86, 49, 50)),      -- NV12
   (.Nv21, (78, 86, 50, 49)),      -- NV21
   (.Yv12, (89, 86, 49, 50)),      -- YV12
   (.I420, (89, 85, 49, 50)),      -- YU12
   (.Yvu9, (89, 86, 85, 57)),      -- YVU9
   (.Luma8, (71, 82, 69, 89)),     -- GREY
   (.Luma16, (89, 49, 54, 32)),    -- Y16 then space
   (.Depth16, (90, 49, 54, 32)),   -- Z16 then space
   (.Rgb332, (82, 71, 66, 51)),    -- RGB3
   (.RgbA8888, (65, 66, 50, 52)),  -- AB24
   (.ARgb8888, (66, 65, 50, 52)),  -- BA24
   (.Rgb555, (82, 88, 49, 53)),    -- RX15
   (.Rgb565, (82, 71, 66, 80)),    -- RGBP
   (.Bayer8, (66, 65, 56, 49)),    -- BA81
   (.Bayer16, (66, 89, 82, 50))]   -- BYR2

/-- `FrameFormatIntermediate::from_frame_format` (the encoder the macro
expands to): the named table arms first, then the `Custom` arm keeping
the first four payload bytes, then `None`. -/
def from_frame_format (frame_format : FrameFormat) : Option FourCC :=
  match fourccTable.find? (fun p => p.1 == frame_format) with
  | some p => some p.2
  | none =>
    match frame_format with
    | .Custom cv => some (func_u8_8_to_fcc cv)
    | _ => none

/-- `FrameFormatIntermediate::into_frame_format` (the decoder the macro
expands to): the table arms first, any other code becomes `Custom` with
the zero-padded code. -/
def into_frame_format (fourcc : FourCC) : FrameFormat :=
  match fourccTable.find? (fun p => p.2 == fourcc) with
  | some p => p.1
  | none => .Custom (func_fcc_to_u8_8 fourcc)

/-- A named (non-`Custom`) frame format. -/
def FrameFormat.isNamed : FrameFormat → Bool
  | .Custom _ => false
  | _ => true

/-- Claim C5: round-trip of the wire-format table. (1) For every named
variant `f` that encodes to a raw code `c`, decoding `c` yields `f`
again. (2) Every raw code `c` not present in the table decodes to the
`Custom` escape variant (zero-padded), and re-encoding that variant
yields `c` unchanged. (The named variant `Rgb888` has no table entry:
its encode is `None`, so part (1) holds for it vacuously.) -/
theorem fourcc_roundtrip :
    (∀ (f : FrameFormat) (c : FourCC), f.isNamed = true →
      from_frame_format f = some c → into_frame_format c = f)
    ∧ (∀ c : FourCC, (∀ p ∈ fourccTable, p.2 ≠ c) →
      into_frame_format c = .Custom (func_fcc_to_u8_8 c) ∧
      from_frame_format (into_frame_format c) = some c) := by
  constructor
  · have key : ∀ q ∈ fourccTable, into_frame_format q.2 = q.1 := by decide
    intro f c hn hc
    rcases hfind : fourccTable.find? (fun q => q.1 == f) with _ | q
    · cases f <;> first
        | exact absurd hfind (by decide)
        | (rw [show from_frame_format FrameFormat.Rgb888 = none from by decide] at hc
           exact Option.noConfusion hc)
        | simp [FrameFormat.isNamed] at hn
    · have hq : q ∈ fourccTable := @List.mem_of_find?_eq_some _ _ q fourccTable hfind
      have heq : (q.1 == f) = true := @List.find?_some _ (fun q => q.1 == f) q fourccTable hfind
      have hqf : q.1 = f := by simpa using heq
      unfold from_frame_format at hc
      rw [hfind] at hc
      have hcq : q.2 = c := by simpa using hc
      rw [← hcq, key q hq, hqf]
  · have keyNamed : ∀ q ∈ fourccTable, q.1.isNamed = true := by decide
    have notCustom : ∀ g : FrameFormat, g.isNamed = true → ∀ x : U8x8,
        (g == FrameFormat.Custom x) = false := by
      intro g hg x
      cases g <;> simp_all [FrameFormat.isNamed]
    intro c hc
    have hnone : fourccTable.find? (fun q => q.2 == c) = none := by
      rw [List.find?_eq_none]
      intro q hq
      simpa using hc q hq
    have hinto : into_frame_format c = .Custom (func_fcc_to_u8_8 c) := by
      unfold into_frame_format
      rw [hnone]
    refine ⟨hinto, ?_⟩
    rw [hinto]
    have hnone2 : fourccTable.find?
        (fun q => q.1 == FrameFormat.Custom (func_fcc_to_u8_8 c)) = none := by
      rw [List.find?_eq_none]
      intro q hq
      rw [notCustom q.1 (keyNamed q hq)]
      simp
    unfold from_frame_format
    rw [hnone2]
    obtain ⟨c0, c1, c2, c3⟩ := c
    rfl

/-- Witness for claim C5: the MJPG code round-trips back to `MJpeg`, and
the null code (not in the table) round-trips through `Custom`. -/
theorem fourcc_roundtrip_witness :
    into_frame_format (77, 74, 80, 71) = FrameFormat.MJpeg ∧
    from_frame_format (into_frame_format (0, 0, 0, 0)) = some (0, 0, 0, 0) :=
  ⟨fourcc_roundtrip.1 .MJpeg (77, 74, 80, 71) (by decide) (by decide),
   (fourcc_roundtrip.2 (0, 0, 0, 0) (by decide)).2⟩

/-- The `FrameFormat` enum that `pixel_format.rs` matches on (the file
comes from the legacy nokhwa tree): `MJPEG`, `YUYV`, `GRAY`, `RAWRGB`,
`NV12`, `BGRA`. Named apart to keep it distinct from the
`frame_format.rs` enumeration above. -/
inductive PixFrameFormat where
  | MJPEG | YUYV | GRAY | RAWRGB | NV12 | BGRA
deriving DecidableEq

/-- Modelled from the spec: the external colour-space conversion
collaborators (`mjpeg_to_rgb`, `yuyv422_to_rgb`, `nv12_to_rgb` and
their caller-buffer variants) are declared in `crate::types` but are
not among the provided sources; the spec treats them as opaque
delegates. The embedded conversions take them as parameters; each
`buf_` variant returns the updated destination. -/
structure ExternalConverters where
  mjpeg_to_rgb : List ℕ → Bool → Res (List ℕ)
  yuyv422_to_rgb : List ℕ → Bool → Res (List ℕ)
  nv12_to_rgb : Resolution → List ℕ → Bool → Res (List ℕ)
  buf_mjpeg_to_rgb : List ℕ → List ℕ → Bool → Res (List ℕ)
  buf_yuyv422_to_rgb : List ℕ → List ℕ → Bool → Res (List ℕ)
  buf_nv12_to_rgb : Resolution → List ℕ → List ℕ → Bool → Res (List ℕ)

/-- Modelled from the spec: a placeholder collaborator used only to
instantiate theorems whose statements do not involve the external
converters. -/
def dummyExternals : ExternalConverters :=
  ⟨fun _ _ => .ok [], fun _ _ => .ok [], fun _ _ _ => .ok [],
   fun _ d _ => .ok d, fun _ d _ => .ok d, fun _ _ d _ => .ok d⟩

/-- `data.chunks_exact(4)`: the remainder is dropped. -/
def chunksExact4 : List ℕ → List (ℕ × ℕ × ℕ × ℕ)
  | a :: b :: c :: d :: rest => (a, b, c, d) :: chunksExact4 rest
  | _ => []

/-- `data.chunks_exact(3)`: the remainder is dropped. -/
def chunksExact3 : List ℕ → List (ℕ × ℕ × ℕ)
  | a :: b :: c :: rest => (a, b, c) :: chunksExact3 rest
  | _ => []

/-- The BGRA ⇒ RGB write loop of `RgbFormat`: for every chunk index
`idx < k`, `dest[idx*3] = px[2]; dest[idx*3+1] = px[1];
dest[idx*3+2] = px[0]`. The guarding length check makes every write
in bounds, so plain `List.set` is faithful. -/
def bgraWriteRgb3 (cs : List (ℕ × ℕ × ℕ × ℕ)) : ℕ → List ℕ → List ℕ
  | 0, dest => dest
  | k + 1, dest =>
    let d := bgraWriteRgb3 cs k dest
    let px := cs.getD k (0, 0, 0, 0)
    ((d.set (k * 3) px.2.2.1).set (k * 3 + 1) px.2.1).set (k * 3 + 2) px.1

/-- The GRAY ⇒ RGB write loop of `RgbFormat`: the luma byte is
replicated into all three channels. In bounds under the guarding
length check. -/
def grayWriteRgb3 (data : List ℕ) : ℕ → List ℕ → List ℕ
  | 0, dest => dest
  | k + 1, dest =>
    let d := grayWriteRgb3 data k dest
    let v := data.getD k 0
    ((d.set (k * 3) v).set (k * 3 + 1) v).set (k * 3 + 2) v

/-- Modelled from the spec: `predicted_size` of the RGB-3 output layout
is `width * height * 3` (spec section 4.4); no predicted-size function
appears among the provided sources. -/
def predicted_size_rgb (resolution : Resolution) : ℕ :=
  resolution.width * resolution.height * 3

/-- `RgbFormat::write_output_buffer` from `pixel_format.rs`. The GRAY
and BGRA arms check `dest` only against lengths derived from `data`
(never against the resolution); the RAWRGB arm performs
`dest.copy_from_slice(data)`, which panics on any length mismatch. -/
def RgbFormat.write_output_buffer (E : ExternalConverters) (fcc : PixFrameFormat)
    (resolution : Resolution) (data dest : List ℕ) : Res (List ℕ) :=
  match fcc with
  | .MJPEG => E.buf_mjpeg_to_rgb data dest false
  | .YUYV => E.buf_yuyv422_to_rgb data dest false
  | .GRAY =>
    if dest.length ≠ data.length * 3 then .nokhwaError "Bad buffer length"
    else .ok (grayWriteRgb3 data data.length dest)
  | .RAWRGB =>
    if dest.length = data.length then .ok data
    else .panik "source slice length does not match destination slice length"
  | .NV12 => E.buf_nv12_to_rgb resolution data dest false
  | .BGRA =>
    if dest.length ≠ data.length / 4 * 3 then .nokhwaError "Bad buffer length"
    else .ok (bgraWriteRgb3 (chunksExact4 data) (chunksExact4 data).length dest)

/-- Claim C8: the claim states that whenever the destination length is
not exactly the predicted output size, the caller-buffer conversion
returns a size-mismatch error before writing a byte. The BGRA arm of
`RgbFormat::write_output_buffer` checks the destination only against
`data.len() / 4 * 3`: at resolution 2×1 (predicted RGB size 6) with a
16-byte source and a 12-byte destination the check passes, and the call
succeeds after overwriting all 12 sentinel bytes. (The RAWRGB arm even
panics in `copy_from_slice` on a destination one byte short, instead of
returning an error.) -/
theorem write_output_buffer_ignores_predicted_size :
    ∀ E : ExternalConverters,
      predicted_size_rgb ⟨2, 1⟩ = 6 ∧
      RgbFormat.write_output_buffer E .BGRA ⟨2, 1⟩
        [1, 2, 3, 4, 5, 6, 7, 8, 9, 10, 11, 12, 13, 14, 15, 16]
        (List.replicate 12 77)
      = .ok [3, 2, 1, 7, 6, 5, 11, 10, 9, 15, 14, 13] ∧
      (List.replicate 12 77 : List ℕ) ≠ [3, 2, 1, 7, 6, 5, 11, 10, 9, 15, 14, 13] ∧
      RgbFormat.write_output_buffer E .RAWRGB ⟨2, 1⟩
        [1, 2, 3, 4, 5, 6] (List.replicate 5 77)
      = .panik "source slice length does not match destination slice length" := by
  intro E
  exact ⟨rfl, rfl, by decide, rfl⟩

/-- The GRAY ⇒ RGBA write loop of `RgbAFormat::write_output_buffer`:
luma into the three colour channels, alpha forced to 255. In bounds
under the guarding length check. -/
def grayWriteRgba (data : List ℕ) : ℕ → List ℕ → List ℕ
  | 0, dest => dest
  | k + 1, dest =>
    let d := grayWriteRgba data k dest
    let v := data.getD k 0
    (((d.set (k * 4) v).set (k * 4 + 1) v).set (k * 4 + 2) v).set (k * 4 + 3) 255

/-- The BGRA ⇒ RGBA write loop shared by `RgbAFormat::write_output`
(into a freshly zeroed buffer) and `RgbAFormat::write_output_buffer`
(into the caller buffer): for every chunk index `idx < k`,
`buf[idx*4] = px[2]; buf[idx*4+1] = px[1]; buf[idx*4+2] = px[0];
buf[idx*4+3] = px[3]`. Every write is in bounds because the chunk count
is at most `buf.len() / 4` at both call sites. -/
def rgbaPxWrites (cs : List (ℕ × ℕ × ℕ × ℕ)) : ℕ → List ℕ → List ℕ
  | 0, buf => buf
  | k + 1, buf =>
    let d := rgbaPxWrites cs k buf
    let px := cs.getD k (0, 0, 0, 0)
    (((d.set (k * 4) px.2.2.1).set (k * 4 + 1) px.2.1).set (k * 4 + 2) px.1).set
      (k * 4 + 3) px.2.2.2

/-- The RAWRGB ⇒ RGBA write loop of `RgbAFormat::write_output_buffer`:
the source has no destination length check, so each write is a checked
(panicking) index assignment. -/
def rgb3ToRgbaWrites (cs : List (ℕ × ℕ × ℕ)) : ℕ → List ℕ → Res (List ℕ)
  | 0, dest => pure dest
  | k + 1, dest => do
    let d ← rgb3ToRgbaWrites cs k dest
    let px := cs.getD k (0, 0, 0)
    let d ← setB d (k * 4) px.1
    let d ← setB d (k * 4 + 1) px.2.1
    let d ← setB d (k * 4 + 2) px.2.2
    let d ← setB d (k * 4 + 3) 255
    pure d

/-- `RgbAFormat::write_output` from `pixel_format.rs`. -/
def RgbAFormat.write_output (E : ExternalConverters) (fcc : PixFrameFormat)
    (resolution : Resolution) (data : List ℕ) : Res (List ℕ) :=
  match fcc with
  | .MJPEG => E.mjpeg_to_rgb data true
  | .YUYV => E.yuyv422_to_rgb data true
  | .GRAY => .ok (data.flatMap (fun x => [x, x, x, 255]))
  | .RAWRGB => .ok ((chunksExact3 data).flatMap (fun x => [x.1, x.2.1, x.2.2, 255]))
  | .NV12 => E.nv12_to_rgb resolution data true
  | .BGRA =>
    .ok (rgbaPxWrites (chunksExact4 data) (chunksExact4 data).length
      (List.replicate data.length 0))

/-- `RgbAFormat::write_output_buffer` from `pixel_format.rs`. -/
def RgbAFormat.write_output_buffer (E : ExternalConverters) (fcc : PixFrameFormat)
    (resolution : Resolution) (data dest : List ℕ) : Res (List ℕ) :=
  match fcc with
  | .MJPEG => E.buf_mjpeg_to_rgb data dest true
  | .YUYV => E.buf_yuyv422_to_rgb data dest true
  | .GRAY =>
    if dest.length ≠ data.length * 4 then .nokhwaError "Bad buffer length"
    else .ok (grayWriteRgba data data.length dest)
  | .RAWRGB => rgb3ToRgbaWrites (chunksExact3 data) (chunksExact3 data).length dest
  | .NV12 => E.buf_nv12_to_rgb resolution data dest true
  | .BGRA =>
    if dest.length ≠ data.length then .nokhwaError "Bad buffer length"
    else .ok (rgbaPxWrites (chunksExact4 data) (chunksExact4 data).length dest)

/-- Channel `r` of an RGBA pixel written from a BGRA chunk
`(b, g, r, a)`: channel 0 holds `px[2]`, channel 1 `px[1]`, channel 2
`px[0]`, channel 3 `px[3]`. -/
def pxComp (px : ℕ × ℕ × ℕ × ℕ) : ℕ → ℕ
  | 0 => px.2.2.1
  | 1 => px.2.1
  | 2 => px.1
  | _ => px.2.2.2
theorem chunksExact4_length : ∀ (n : ℕ) (data : List ℕ), data.length = 4 * n →
    (chunksExact4 data).length = n := by
  intro n
  induction n with
  | zero =>
    intro data h
    rcases data with _ | ⟨a, t⟩
    · rfl
    · simp at h
  | succ m ih =>
    intro data h
    rcases data with _ | ⟨a, _ | ⟨b, _ | ⟨c, _ | ⟨d, t⟩⟩⟩⟩
    · simp at h
    · simp at h; omega
    · simp at h; omega
    · simp at h; omega
    · simp only [List.length_cons] at h
      simp only [chunksExact4, List.length_cons]
      rw [ih t (by omega)]

theorem chunksExact4_getD : ∀ (i n : ℕ) (data : List ℕ), data.length = 4 * n → i < n →
    (chunksExact4 data).getD i (0, 0, 0, 0) =
      (data.getD (4 * i) 0, data.getD (4 * i + 1) 0, data.getD (4 * i + 2) 0,
       data.getD (4 * i + 3) 0) := by
  intro i
  induction i with
  | zero =>
    intro n data h hi
    rcases data with _ | ⟨a, _ | ⟨b, _ | ⟨c, _ | ⟨d, t⟩⟩⟩⟩
    · simp at h; omega
    · simp at h; omega
    · simp at h; omega
    · simp at h; omega
    · simp [chunksExact4]
  | succ j ih =>
    intro n data h hj
    rcases data with _ | ⟨a, _ | ⟨b, _ | ⟨c, _ | ⟨d, t⟩⟩⟩⟩
    · simp at h; omega
    · simp at h; omega
    · simp at h; omega
    · simp at h; omega
    · simp only [List.length_cons] at h
      have e0 : (a :: b :: c :: d :: t).getD (4 * (j + 1)) 0 = t.getD (4 * j) 0 := by
        rw [show 4 * (j + 1) = 4 * j + 1 + 1 + 1 + 1 from by ring]
        simp only [List.getD_cons_succ]
      have e1 : (a :: b :: c :: d :: t).getD (4 * (j + 1) + 1) 0 = t.getD (4 * j + 1) 0 := by
        rw [show 4 * (j + 1) + 1 = (4 * j + 1) + 1 + 1 + 1 + 1 from by ring]
        simp only [List.getD_cons_succ]
      have e2 : (a :: b :: c :: d :: t).getD (4 * (j + 1) + 2) 0 = t.getD (4 * j + 2) 0 := by
        rw [show 4 * (j + 1) + 2 = (4 * j + 2) + 1 + 1 + 1 + 1 from by ring]
        simp only [List.getD_cons_succ]
      have e3 : (a :: b :: c :: d :: t).getD (4 * (j + 1) + 3) 0 = t.getD (4 * j + 3) 0 := by
        rw [show 4 * (j + 1) + 3 = (4 * j + 3) + 1 + 1 + 1 + 1 from by ring]
        simp only [List.getD_cons_succ]
      rw [e0, e1, e2, e3]
      simp only [chunksExact4, List.getD_cons_succ]
      exact ih (n - 1) t (by omega) (by omega)

theorem rgbaPxWrites_length (cs : List (ℕ × ℕ × ℕ × ℕ)) :
    ∀ (k : ℕ) (buf : List ℕ), (rgbaPxWrites cs k buf).length = buf.length := by
  intro k
  induction k with
  | zero => intro buf; rfl
  | succ m ih =>
    intro buf
    simp only [rgbaPxWrites, List.length_set]
    exact ih buf

theorem rgbaPxWrites_getElem (cs : List (ℕ × ℕ × ℕ × ℕ)) :
    ∀ (k : ℕ) (buf : List ℕ), 4 * k ≤ buf.length → ∀ j,
      (rgbaPxWrites cs k buf)[j]? =
        if j < 4 * k then some (pxComp (cs.getD (j / 4) (0, 0, 0, 0)) (j % 4))
        else buf[j]? := by
  intro k
  induction k with
  | zero =>
    intro buf h j
    simp [rgbaPxWrites]
  | succ m ih =>
    intro buf h j
    have hlen : (rgbaPxWrites cs m buf).length = buf.length := rgbaPxWrites_length cs m buf
    simp only [rgbaPxWrites, List.getElem?_set, List.length_set, hlen]
    rcases Nat.lt_or_ge j (4 * m) with hj | hj
    · rw [if_neg (by omega), if_neg (by omega), if_neg (by omega), if_neg (by omega)]
      rw [ih buf (by omega) j, if_pos hj, if_pos (by omega)]
    · rcases Nat.lt_or_ge j (4 * (m + 1)) with hj2 | hj2
      · rcases (by omega : j = m * 4 ∨ j = m * 4 + 1 ∨ j = m * 4 + 2 ∨ j = m * 4 + 3) with
          h4 | h4 | h4 | h4 <;> subst h4
        · rw [if_neg (by omega), if_neg (by omega), if_neg (by omega), if_pos rfl,
            if_pos (by omega), if_pos (by omega)]
          rw [show (m * 4) / 4 = m from by omega, show (m * 4) % 4 = 0 from by omega]
          rfl
        · rw [if_neg (by omega), if_neg (by omega), if_pos rfl, if_pos (by omega),
            if_pos (by omega)]
          rw [show (m * 4 + 1) / 4 = m from by omega, show (m * 4 + 1) % 4 = 1 from by omega]
          rfl
        · rw [if_neg (by omega), if_pos rfl, if_pos (by omega), if_pos (by omega)]
          rw [show (m * 4 + 2) / 4 = m from by omega, show (m * 4 + 2) % 4 = 2 from by omega]
          rfl
        · rw [if_pos rfl, if_pos (by omega), if_pos (by omega)]
          rw [show (m * 4 + 3) / 4 = m from by omega, show (m * 4 + 3) % 4 = 3 from by omega]
          rfl
      · rw [if_neg (by omega), if_neg (by omega), if_neg (by omega), if_neg (by omega)]
        rw [ih buf (by omega) j, if_neg (by omega), if_neg (by omega)]
theorem getElem?_eq_some_getD (l : List ℕ) (i : ℕ) (h : i < l.length) :
    l[i]? = some (l.getD i 0) := by
  rw [List.getD_eq_getElem?_getD, List.getElem?_eq_getElem h]
  rfl

theorem flatMap_rgba_alpha : ∀ (data : List ℕ) (i : ℕ), i < data.length →
    (data.flatMap (fun x => [x, x, x, 255]))[4 * i + 3]? = some 255 := by
  intro data
  induction data with
  | nil => intro i hi; simp at hi
  | cons v t ih =>
    intro i hi
    cases i with
    | zero => simp
    | succ j =>
      rw [List.flatMap_cons, show 4 * (j + 1) + 3 = (4 * j + 3) + 1 + 1 + 1 + 1 from by ring]
      simp only [List.cons_append, List.getElem?_cons_succ]
      exact ih j (by simpa using hi)

/-- Claim C10: a packed BGRA source of length a multiple of 4 converts
to RGBA by mapping each chunk `(B, G, R, A)` to `(R, G, B, A)`, keeping
the source alpha byte verbatim; the caller-buffer variant with an
exact-size destination produces the same bytes; and, by contrast, the
grayscale source always gets an introduced alpha of 255. -/
theorem bgra_to_rgba_preserves_alpha :
    ∀ (E : ExternalConverters) (res : Resolution) (data : List ℕ) (n : ℕ),
      data.length = 4 * n →
      ∃ out,
        RgbAFormat.write_output E .BGRA res data = .ok out ∧
        (∀ dest : List ℕ, dest.length = data.length →
          RgbAFormat.write_output_buffer E .BGRA res data dest = .ok out) ∧
        out.length = data.length ∧
        (∀ i, i < n →
          out[4 * i]? = data[4 * i + 2]? ∧
          out[4 * i + 1]? = data[4 * i + 1]? ∧
          out[4 * i + 2]? = data[4 * i]? ∧
          out[4 * i + 3]? = data[4 * i + 3]?) ∧
        (∀ (gdata : List ℕ) (i : ℕ), i < gdata.length →
          ∃ gout, RgbAFormat.write_output E .GRAY res gdata = .ok gout ∧
            gout[4 * i + 3]? = some 255) := by
  intro E res data n h
  have hcs : (chunksExact4 data).length = n := chunksExact4_length n data h
  have hrep : (List.replicate data.length (0 : ℕ)).length = data.length :=
    List.length_replicate data.length 0
  refine ⟨rgbaPxWrites (chunksExact4 data) (chunksExact4 data).length
      (List.replicate data.length 0), rfl, ?_, ?_, ?_, ?_⟩
  · intro dest hd
    simp only [RgbAFormat.write_output_buffer]
    rw [if_neg (by omega)]
    congr 1
    apply List.ext_getElem?
    intro j
    rw [rgbaPxWrites_getElem _ _ dest (by omega),
      rgbaPxWrites_getElem _ _ (List.replicate data.length 0) (by omega)]
    by_cases hj : j < 4 * (chunksExact4 data).length
    · rw [if_pos hj, if_pos hj]
    · rw [if_neg hj, if_neg hj, List.getElem?_eq_none (by omega),
        List.getElem?_eq_none (by rw [List.length_replicate]; omega)]
  · rw [rgbaPxWrites_length, List.length_replicate]
  · intro i hi
    have hw := rgbaPxWrites_getElem (chunksExact4 data) (chunksExact4 data).length
      (List.replicate data.length 0) (by omega)
    have hgd := chunksExact4_getD i n data h hi
    refine ⟨?_, ?_, ?_, ?_⟩
    · rw [hw (4 * i), if_pos (by omega),
        show (4 * i) / 4 = i from by omega, show (4 * i) % 4 = 0 from by omega, hgd,
        getElem?_eq_some_getD data (4 * i + 2) (by omega)]
      rfl
    · rw [hw (4 * i + 1), if_pos (by omega),
        show (4 * i + 1) / 4 = i from by omega, show (4 * i + 1) % 4 = 1 from by omega, hgd,
        getElem?_eq_some_getD data (4 * i + 1) (by omega)]
      rfl
    · rw [hw (4 * i + 2), if_pos (by omega),
        show (4 * i + 2) / 4 = i from by omega, show (4 * i + 2) % 4 = 2 from by omega, hgd,
        getElem?_eq_some_getD data (4 * i) (by omega)]
      rfl
    · rw [hw (4 * i + 3), if_pos (by omega),
        show (4 * i + 3) / 4 = i from by omega, show (4 * i + 3) % 4 = 3 from by omega, hgd,
        getElem?_eq_some_getD data (4 * i + 3) (by omega)]
      rfl
  · intro gdata i hi
    exact ⟨_, rfl, flatMap_rgba_alpha gdata i hi⟩

/-- Witness for claim C10 at the single BGRA pixel `(10, 20, 30, 40)`:
the output pixel keeps alpha 40. -/
theorem bgra_to_rgba_preserves_alpha_witness :
    ∃ out, RgbAFormat.write_output dummyExternals .BGRA ⟨1, 1⟩ [10, 20, 30, 40] = .ok out ∧
      out[3]? = some 40 := by
  obtain ⟨out, h1, _, _, h4, _⟩ :=
    bgra_to_rgba_preserves_alpha dummyExternals ⟨1, 1⟩ [10, 20, 30, 40] 1 rfl
  exact ⟨out, h1, by simpa using (h4 0 (by omega)).2.2.2⟩

/-- Mutable state of an I420 conversion: the three destination planes
obtained from `split_at_mut`. Writing them back as `y ++ u ++ v`
reconstructs the destination buffer, since the splits partition it and
`List.set` preserves lengths. -/
structure I420State where
  y : List ℕ
  u : List ℕ
  v : List ℕ
deriving DecidableEq

/-- One iteration of the YUYV ⇒ I420 inner loop
(`convert_yuyv_to_i420_direct`), at row `y` and column `x` (`x` even):
read `y0 u y1 v` at `base_index = (y*width + x)*2`, write both luma
samples, and write the chroma pair only when the row index is even. -/
def yuyvBody (yuyv : List ℕ) (width y x : ℕ) (s : I420State) : Res I420State := do
  let base_index := (y * width + x) * 2
  let y0 ← getB yuyv base_index
  let u ← getB yuyv (base_index + 1)
  let y1 ← getB yuyv (base_index + 2)
  let v ← getB yuyv (base_index + 3)
  let yp ← setB s.y (y * width + x) y0
  let yp2 ← setB yp (y * width + x + 1) y1
  if y % 2 = 0 then do
    let up ← setB s.u (y / 2 * (width / 2) + x / 2) u
    let vp ← setB s.v (y / 2 * (width / 2) + x / 2) v
    pure ⟨yp2, up, vp⟩
  else
    pure ⟨yp2, s.u, s.v⟩

/-- The inner loop `for x in (0..width).step_by(2)` as recursion over
its trip count `⌈width/2⌉`, iteration `k` running the body at
`x = 2k`. -/
def yuyvCols (yuyv : List ℕ) (width y : ℕ) : ℕ → I420State → Res I420State
  | 0, s => pure s
  | k + 1, s => do
    let s2 ← yuyvCols yuyv width y k s
    yuyvBody yuyv width y (2 * k) s2

/-- The outer loop `for y in 0..height` as recursion over the row
count. -/
def yuyvRows (yuyv : List ℕ) (width : ℕ) : ℕ → I420State → Res I420State
  | 0, s => pure s
  | m + 1, s => do
    let s2 ← yuyvRows yuyv width m s
    yuyvCols yuyv width m ((width + 1) / 2) s2

/-- `convert_yuyv_to_i420_direct` from `pixel_format.rs`. The guard is
`dest.len() < width*height + 2*(width/2)*(height/2)` (a longer
destination is accepted); the `split_at_mut` points are in bounds
whenever the guard passes, so the plane splits cannot panic. -/
def convert_yuyv_to_i420_direct (yuyv : List ℕ) (width height : ℕ) (dest : List ℕ) :
    Res (List ℕ) :=
  if dest.length < width * height + 2 * (width / 2) * (height / 2) then
    .nokhwaError "Destination buffer is too small"
  else
    let y_plane := dest.take (width * height)
    let uv_plane := dest.drop (width * height)
    let u_plane := uv_plane.take (uv_plane.length / 2)
    let v_plane := uv_plane.drop (uv_plane.length / 2)
    match yuyvRows yuyv width height ⟨y_plane, u_plane, v_plane⟩ with
    | .ok s => .ok (s.y ++ s.u ++ s.v)
    | .nokhwaError e => .nokhwaError e
    | .panik e => .panik e

/-- Inner loop of `nv12_to_i420` (`for col in 0..width/2`) as recursion
over the trip count, de-interleaving one UV pair per iteration. -/
def nv12UVCols (nv12_uv : List ℕ) (width row : ℕ) :
    ℕ → List ℕ × List ℕ → Res (List ℕ × List ℕ)
  | 0, uv => pure uv
  | c + 1, uv => do
    let uv2 ← nv12UVCols nv12_uv width row c uv
    let nv12_index := row * width + c * 2
    let uv_index := row * (width / 2) + c
    let uval ← getB nv12_uv nv12_index
    let u2 ← setB uv2.1 uv_index uval
    let vval ← getB nv12_uv (nv12_index + 1)
    let v2 ← setB uv2.2 uv_index vval
    pure (u2, v2)

/-- Outer loop of `nv12_to_i420` (`for row in 0..height/2`). -/
def nv12UVRows (nv12_uv : List ℕ) (width : ℕ) :
    ℕ → List ℕ × List ℕ → Res (List ℕ × List ℕ)
  | 0, uv => pure uv
  | r + 1, uv => do
    let uv2 ← nv12UVRows nv12_uv width r uv
    nv12UVCols nv12_uv width r (width / 2) uv2

/-- `nv12_to_i420` from `pixel_format.rs`: `assert!` on odd dimensions
becomes a panic; the `split_at_mut` points and the `&nv12[..size]`
slice are checked in source order (the `copy_from_slice` length check
always holds once the splits succeed, because both sides then have
length `y_plane_size`). -/
def nv12_to_i420 (nv12 : List ℕ) (width height : ℕ) (i420 : List ℕ) : Res (List ℕ) :=
  if ¬(width % 2 = 0 ∧ height % 2 = 0) then
    .panik "Width and height must be even numbers."
  else
    let y_plane_size := width * height
    let uv_plane_size := y_plane_size / 2
    let u_plane_size := uv_plane_size / 2
    if i420.length < y_plane_size then .panik "mid > len"
    else
      let uv_planes := i420.drop y_plane_size
      if uv_planes.length < u_plane_size then .panik "mid > len"
      else
        let u_plane := uv_planes.take u_plane_size
        let v_plane := uv_planes.drop u_plane_size
        if nv12.length < y_plane_size then .panik "range end index out of range for slice"
        else
          let y_out := nv12.take y_plane_size
          let nv12_uv := nv12.drop y_plane_size
          match nv12UVRows nv12_uv width (height / 2) (u_plane, v_plane) with
          | .ok uv => .ok (y_out ++ uv.1 ++ uv.2)
          | .nokhwaError e => .nokhwaError e
          | .panik e => .panik e

/-- Rust `f32::round() as u8` for the BT.601 kernel of `bgra_to_i420`:
round half away from zero, then saturate into `[0, 255]`. The `f32`
coefficient literals are modelled as exact decimals; no theorem below
evaluates these values. -/
def rustRoundU8 (q : ℚ) : ℕ := if q ≤ 0 then 0 else min 255 (q + 1 / 2).floor.toNat

/-- Inner loop of `bgra_to_i420` (`for x in 0..width`): full BT.601
conversion per pixel, chroma written only at even row and column. -/
def bgraPixCols (bgra : List ℕ) (width y : ℕ) : ℕ → I420State → Res I420State
  | 0, s => pure s
  | x + 1, s => do
    let s2 ← bgraPixCols bgra width y x s
    let bgra_index := (y * width + x) * 4
    let b ← getB bgra bgra_index
    let g ← getB bgra (bgra_index + 1)
    let r ← getB bgra (bgra_index + 2)
    let y_value := rustRoundU8 ((257 / 1000 : ℚ) * r + (504 / 1000 : ℚ) * g
      + (98 / 1000 : ℚ) * b + 16)
    let u_value := rustRoundU8 (-(148 / 1000 : ℚ) * r - (291 / 1000 : ℚ) * g
      + (439 / 1000 : ℚ) * b + 128)
    let v_value := rustRoundU8 ((439 / 1000 : ℚ) * r - (368 / 1000 : ℚ) * g
      - (71 / 1000 : ℚ) * b + 128)
    let yp ← setB s2.y (y * width + x) y_value
    if y % 2 = 0 ∧ x % 2 = 0 then do
      let uv_index := y / 2 * (width / 2) + x / 2
      let up ← setB s2.u uv_index u_value
      let vp ← setB s2.v uv_index v_value
      pure ⟨yp, up, vp⟩
    else
      pure ⟨yp, s2.u, s2.v⟩

/-- Outer loop of `bgra_to_i420` (`for y in 0..height`). -/
def bgraPixRows (bgra : List ℕ) (width : ℕ) : ℕ → I420State → Res I420State
  | 0, s => pure s
  | y + 1, s => do
    let s2 ← bgraPixRows bgra width y s
    bgraPixCols bgra width y width s2

/-- `bgra_to_i420` from `pixel_format.rs`: the two asserts become
panics; both `split_at_mut` points are then always in bounds
(`i420.len() ≥ w*h*3/2 ≥ w*h` and the UV remainder is at least
`w*h/4`). -/
def bgra_to_i420 (bgra : List ℕ) (width height : ℕ) (i420 : List ℕ) : Res (List ℕ) :=
  if bgra.length ≠ width * height * 4 then .panik "Invalid BGRA buffer size"
  else if ¬(width * height * 3 / 2 ≤ i420.length) then .panik "Insufficient I420 buffer size"
  else
    let y_plane := i420.take (width * height)
    let uv_planes := i420.drop (width * height)
    let u_plane := uv_planes.take (width * height / 4)
    let v_plane := uv_planes.drop (width * height / 4)
    match bgraPixRows bgra width height ⟨y_plane, u_plane, v_plane⟩ with
    | .ok s => .ok (s.y ++ s.u ++ s.v)
    | .nokhwaError e => .nokhwaError e
    | .panik e => .panik e

/-- `I420Format::write_output` from `pixel_format.rs`: only the YUYV
source is accepted; it allocates `w*h*3/2` zero bytes and delegates. -/
def I420Format.write_output (fcc : PixFrameFormat) (resolution : Resolution)
    (data : List ℕ) : Res (List ℕ) :=
  match fcc with
  | .YUYV =>
    match convert_yuyv_to_i420_direct data resolution.width resolution.height
      (List.replicate (resolution.width * resolution.height * 3 / 2) 0) with
    | .ok out => .ok out
    | .nokhwaError e => .nokhwaError e
    | .panik e => .panik e
  | _ => .nokhwaError "Invalid FrameFormat in write_output"

/-- `I420Format::write_output_buffer` from `pixel_format.rs`: YUYV,
NV12 and BGRA sources are accepted; anything else errors. -/
def I420Format.write_output_buffer (fcc : PixFrameFormat) (resolution : Resolution)
    (data dest : List ℕ) : Res (List ℕ) :=
  match fcc with
  | .YUYV => convert_yuyv_to_i420_direct data resolution.width resolution.height dest
  | .NV12 => nv12_to_i420 data resolution.width resolution.height dest
  | .BGRA => bgra_to_i420 data resolution.width resolution.height dest
  | _ => .nokhwaError "Invalid FrameFormat in write_output_buffer"

/-- Claim C9: the claim states that invalid caller input produces a
recoverable error — in particular an odd dimension in a 4:2:0
conversion yields a precondition error and a short source buffer a
malformed-input error, never a panic. The NV12 ⇒ I420 path `assert!`s
evenness and so panics at width 3, and `bgra_to_i420` `assert_eq!`s the
source length and so panics on a 7-byte source for a 2×2 frame, in both
cases aborting instead of returning an error. -/
theorem i420_conversions_panic_on_bad_input :
    I420Format.write_output_buffer .NV12 ⟨3, 2⟩ (List.replicate 9 0) (List.replicate 9 0)
      = .panik "Width and height must be even numbers." ∧
    bgra_to_i420 (List.replicate 7 0) 2 2 (List.replicate 6 0)
      = .panik "Invalid BGRA buffer size" := by
  exact ⟨by decide, by decide⟩

theorem getB_ok (l : List ℕ) (i : ℕ) (h : i < l.length) : getB l i = .ok (l.getD i 0) := by
  simp only [getB, List.getElem?_eq_getElem h]
  congr 1
  rw [List.getD_eq_getElem?_getD, List.getElem?_eq_getElem h]
  rfl

theorem setB_ok (l : List ℕ) (i v : ℕ) (h : i < l.length) : setB l i v = .ok (l.set i v) := by
  unfold setB
  rw [if_pos h]

theorem res_bind_ok {α β : Type} (a : α) (f : α → Res β) :
    (Res.ok a >>= f) = f a := rfl

theorem getD_set (l : List ℕ) (i j v : ℕ) :
    (l.set i v).getD j 0 = if i = j ∧ j < l.length then v else l.getD j 0 := by
  rw [List.getD_eq_getElem?_getD, List.getD_eq_getElem?_getD, List.getElem?_set]
  by_cases hij : i = j
  · subst hij
    by_cases hl : i < l.length
    · rw [if_pos rfl, if_pos hl, if_pos ⟨rfl, hl⟩]
      rfl
    · rw [if_pos rfl, if_neg hl, if_neg (by tauto), List.getElem?_eq_none (by omega)]
  · rw [if_neg hij, if_neg (by tauto)]

/-- One YUYV body step at an in-range position rewrites the three
planes by explicit `List.set` updates (chroma only on even rows). -/
theorem yuyvBody_ok (yuyv : List ℕ) (w y x : ℕ) (s : I420State)
    (h1 : (y * w + x) * 2 + 3 < yuyv.length)
    (h2 : y * w + x + 1 < s.y.length)
    (h3 : y % 2 = 0 → y / 2 * (w / 2) + x / 2 < s.u.length ∧
      y / 2 * (w / 2) + x / 2 < s.v.length) :
    yuyvBody yuyv w y x s = .ok (
      if y % 2 = 0 then
        ⟨(s.y.set (y * w + x) (yuyv.getD ((y * w + x) * 2) 0)).set (y * w + x + 1)
            (yuyv.getD ((y * w + x) * 2 + 2) 0),
         s.u.set (y / 2 * (w / 2) + x / 2) (yuyv.getD ((y * w + x) * 2 + 1) 0),
         s.v.set (y / 2 * (w / 2) + x / 2) (yuyv.getD ((y * w + x) * 2 + 3) 0)⟩
      else
        ⟨(s.y.set (y * w + x) (yuyv.getD ((y * w + x) * 2) 0)).set (y * w + x + 1)
            (yuyv.getD ((y * w + x) * 2 + 2) 0),
         s.u, s.v⟩) := by
  unfold yuyvBody
  dsimp only
  rw [getB_ok yuyv ((y * w + x) * 2) (by omega), res_bind_ok,
    getB_ok yuyv ((y * w + x) * 2 + 1) (by omega), res_bind_ok,
    getB_ok yuyv ((y * w + x) * 2 + 2) (by omega), res_bind_ok,
    getB_ok yuyv ((y * w + x) * 2 + 3) (by omega), res_bind_ok,
    setB_ok s.y (y * w + x) _ (by omega), res_bind_ok,
    setB_ok _ (y * w + x + 1) _ (by rw [List.length_set]; omega), res_bind_ok]
  by_cases hy : y % 2 = 0
  · rw [if_pos hy, if_pos hy,
      setB_ok s.u _ _ (h3 hy).1, res_bind_ok,
      setB_ok s.v _ _ (h3 hy).2, res_bind_ok]
    rfl
  · rw [if_neg hy, if_neg hy]
    rfl

/-- Characterisation of `k` iterations of the YUYV inner loop at row
`y`: luma positions `[y*w, y*w + 2k)` now hold `yuyv[2j]`, and (even
rows only) chroma positions `[y/2*(w/2), y/2*(w/2) + k)` hold the `u`
resp. `v` byte of their column pair; everything else is untouched. -/
theorem yuyvCols_ok (yuyv : List ℕ) (w hgt y : ℕ) (hw : w % 2 = 0) (hh : hgt % 2 = 0)
    (hy : y < hgt) (hlen : yuyv.length = w * hgt * 2) :
    ∀ k : ℕ, k ≤ w / 2 → ∀ s : I420State,
      s.y.length = w * hgt →
      s.u.length = w / 2 * (hgt / 2) →
      s.v.length = w / 2 * (hgt / 2) →
      ∃ t : I420State,
        yuyvCols yuyv w y k s = .ok t ∧
        t.y.length = w * hgt ∧
        t.u.length = w / 2 * (hgt / 2) ∧
        t.v.length = w / 2 * (hgt / 2) ∧
        (∀ j, t.y.getD j 0 =
          if y * w ≤ j ∧ j < y * w + 2 * k then yuyv.getD (2 * j) 0
          else s.y.getD j 0) ∧
        (∀ j, t.u.getD j 0 =
          if y % 2 = 0 ∧ y / 2 * (w / 2) ≤ j ∧ j < y / 2 * (w / 2) + k then
            yuyv.getD ((y * w + 2 * (j - y / 2 * (w / 2))) * 2 + 1) 0
          else s.u.getD j 0) ∧
        (∀ j, t.v.getD j 0 =
          if y % 2 = 0 ∧ y / 2 * (w / 2) ≤ j ∧ j < y / 2 * (w / 2) + k then
            yuyv.getD ((y * w + 2 * (j - y / 2 * (w / 2))) * 2 + 3) 0
          else s.v.getD j 0) := by
  intro k
  induction k with
  | zero =>
    intro hk s hsy hsu hsv
    refine ⟨s, rfl, hsy, hsu, hsv, ?_, ?_, ?_⟩
    · intro j; rw [if_neg (by omega)]
    · intro j; rw [if_neg (by omega)]
    · intro j; rw [if_neg (by omega)]
  | succ k ih =>
    intro hk s hsy hsu hsv
    obtain ⟨t, ht, hty, htu, htv, hcy, hcu, hcv⟩ := ih (by omega) s hsy hsu hsv
    have hyw : y * w + w ≤ w * hgt := by
      calc y * w + w = (y + 1) * w := by ring
        _ ≤ hgt * w := mul_le_mul_right' (by omega) w
        _ = w * hgt := Nat.mul_comm hgt w
    have h2k : 2 * k + 2 ≤ w := by omega
    have huv : y % 2 = 0 → y / 2 * (w / 2) + k < w / 2 * (hgt / 2) := by
      intro hy2
      have hy2' : y / 2 + 1 ≤ hgt / 2 := by omega
      have hmul : (y / 2 + 1) * (w / 2) ≤ hgt / 2 * (w / 2) :=
        mul_le_mul_right' hy2' (w / 2)
      have hexp : (y / 2 + 1) * (w / 2) = y / 2 * (w / 2) + w / 2 := by ring
      have hcomm : hgt / 2 * (w / 2) = w / 2 * (hgt / 2) := Nat.mul_comm _ _
      omega
    have hbody := yuyvBody_ok yuyv w y (2 * k) t
      (by omega)
      (by omega)
      (fun hy2 => ⟨by have := huv hy2; omega, by have := huv hy2; omega⟩)
    by_cases hy2 : y % 2 = 0
    · rw [if_pos hy2] at hbody
      refine ⟨⟨(t.y.set (y * w + 2 * k) (yuyv.getD ((y * w + 2 * k) * 2) 0)).set
          (y * w + 2 * k + 1) (yuyv.getD ((y * w + 2 * k) * 2 + 2) 0),
        t.u.set (y / 2 * (w / 2) + 2 * k / 2) (yuyv.getD ((y * w + 2 * k) * 2 + 1) 0),
        t.v.set (y / 2 * (w / 2) + 2 * k / 2) (yuyv.getD ((y * w + 2 * k) * 2 + 3) 0)⟩,
        ?_, ?_, ?_, ?_, ?_, ?_, ?_⟩
      · simp only [yuyvCols]
        rw [ht, res_bind_ok, hbody]
      · simp only [List.length_set]
        exact hty
      · simp only [List.length_set]
        exact htu
      · simp only [List.length_set]
        exact htv
      · intro j
        simp only
        rw [getD_set, List.length_set, getD_set, hcy j]
        split_ifs <;> first | rfl | omega | (congr 1; omega)
      · intro j
        simp only
        rw [getD_set, hcu j]
        split_ifs <;> first | rfl | omega | (congr 1; omega)
      · intro j
        simp only
        rw [getD_set, hcv j]
        split_ifs <;> first | rfl | omega | (congr 1; omega)
    · rw [if_neg hy2] at hbody
      refine ⟨⟨(t.y.set (y * w + 2 * k) (yuyv.getD ((y * w + 2 * k) * 2) 0)).set
          (y * w + 2 * k + 1) (yuyv.getD ((y * w + 2 * k) * 2 + 2) 0), t.u, t.v⟩,
        ?_, ?_, ?_, ?_, ?_, ?_, ?_⟩
      · simp only [yuyvCols]
        rw [ht, res_bind_ok, hbody]
      · simp only [List.length_set]
        exact hty
      · exact htu
      · exact htv
      · intro j
        simp only
        rw [getD_set, List.length_set, getD_set, hcy j]
        split_ifs <;> first | rfl | omega | (congr 1; omega)
      · intro j
        simp only
        rw [hcu j]
        rw [if_neg (by omega), if_neg (by omega)]
      · intro j
        simp only
        rw [hcv j]
        rw [if_neg (by omega), if_neg (by omega)]

/-- Characterisation of `m` rows of the YUYV ⇒ I420 loop: luma
positions `[0, m*w)` hold `yuyv[2j]`, and chroma positions below
`⌈m/2⌉ * (w/2)` hold the chroma bytes of their (even) source row
`2*(j / (w/2))`; everything else is untouched. -/
theorem yuyvRows_ok (yuyv : List ℕ) (w hgt : ℕ) (hw : w % 2 = 0) (hh : hgt % 2 = 0)
    (hlen : yuyv.length = w * hgt * 2) :
    ∀ m : ℕ, m ≤ hgt → ∀ s : I420State,
      s.y.length = w * hgt →
      s.u.length = w / 2 * (hgt / 2) →
      s.v.length = w / 2 * (hgt / 2) →
      ∃ t : I420State,
        yuyvRows yuyv w m s = .ok t ∧
        t.y.length = w * hgt ∧
        t.u.length = w / 2 * (hgt / 2) ∧
        t.v.length = w / 2 * (hgt / 2) ∧
        (∀ j, t.y.getD j 0 = if j < m * w then yuyv.getD (2 * j) 0 else s.y.getD j 0) ∧
        (∀ j, t.u.getD j 0 =
          if j < (m + 1) / 2 * (w / 2) then
            yuyv.getD ((2 * (j / (w / 2)) * w + 2 * (j % (w / 2))) * 2 + 1) 0
          else s.u.getD j 0) ∧
        (∀ j, t.v.getD j 0 =
          if j < (m + 1) / 2 * (w / 2) then
            yuyv.getD ((2 * (j / (w / 2)) * w + 2 * (j % (w / 2))) * 2 + 3) 0
          else s.v.getD j 0) := by
  intro m
  induction m with
  | zero =>
    intro hm s hsy hsu hsv
    refine ⟨s, rfl, hsy, hsu, hsv, ?_, ?_, ?_⟩
    · intro j; rw [if_neg (by omega)]
    · intro j; rw [if_neg (by simp)]
    · intro j; rw [if_neg (by simp)]
  | succ m ih =>
    intro hm s hsy hsu hsv
    obtain ⟨t1, ht1, ht1y, ht1u, ht1v, hy1, hu1, hv1⟩ := ih (by omega) s hsy hsu hsv
    have hW : (w + 1) / 2 = w / 2 := by omega
    obtain ⟨t2, ht2, ht2y, ht2u, ht2v, hy2, hu2, hv2⟩ :=
      yuyvCols_ok yuyv w hgt m hw hh (by omega) hlen ((w + 1) / 2) (by omega) t1
        ht1y ht1u ht1v
    have hmw : (m + 1) * w = m * w + w := by ring
    refine ⟨t2, ?_, ht2y, ht2u, ht2v, ?_, ?_, ?_⟩
    · simp only [yuyvRows]
      rw [ht1, res_bind_ok, ht2]
    · intro j
      rw [hy2 j, hy1 j, hW]
      split_ifs <;> first | rfl | omega
    · intro j
      rw [hu2 j, hu1 j, hW]
      by_cases hm2 : m % 2 = 0
      · have hA1 : (m + 1) / 2 = m / 2 := by omega
        have hA2 : (m + 1 + 1) / 2 = m / 2 + 1 := by omega
        have hExp : (m / 2 + 1) * (w / 2) = m / 2 * (w / 2) + w / 2 := by ring
        rw [hA1, hA2, hExp]
        by_cases hC2 : m % 2 = 0 ∧ m / 2 * (w / 2) ≤ j ∧ j < m / 2 * (w / 2) + w / 2
        · obtain ⟨-, hq1, hq2⟩ := hC2
          rw [if_pos ⟨hm2, hq1, hq2⟩, if_pos (by omega)]
          have hA0 : 0 < w / 2 := by omega
          obtain ⟨r, hrj, hrlt⟩ : ∃ r, j = r + w / 2 * (m / 2) ∧ r < w / 2 :=
            ⟨j - m / 2 * (w / 2), by
              have hQ : w / 2 * (m / 2) = m / 2 * (w / 2) := Nat.mul_comm _ _
              omega, by omega⟩
          have hdiv : j / (w / 2) = m / 2 := by
            rw [hrj, Nat.add_mul_div_left _ _ hA0, Nat.div_eq_of_lt hrlt, Nat.zero_add]
          have hmod : j % (w / 2) = j - m / 2 * (w / 2) := by
            rw [hrj, Nat.add_mul_mod_self_left, Nat.mod_eq_of_lt hrlt]
            have hQ : w / 2 * (m / 2) = m / 2 * (w / 2) := Nat.mul_comm _ _
            omega
          congr 1
          rw [hdiv, hmod, show 2 * (m / 2) = m from by omega]
        · rw [if_neg (by tauto)]
          by_cases hC1 : j < m / 2 * (w / 2)
          · rw [if_pos hC1, if_pos (by omega)]
          · rw [if_neg hC1, if_neg (by omega)]
      · rw [if_neg (by omega), show (m + 1 + 1) / 2 = (m + 1) / 2 from by omega]
    · intro j
      rw [hv2 j, hv1 j, hW]
      by_cases hm2 : m % 2 = 0
      · have hA1 : (m + 1) / 2 = m / 2 := by omega
        have hA2 : (m + 1 + 1) / 2 = m / 2 + 1 := by omega
        have hExp : (m / 2 + 1) * (w / 2) = m / 2 * (w / 2) + w / 2 := by ring
        rw [hA1, hA2, hExp]
        by_cases hC2 : m % 2 = 0 ∧ m / 2 * (w / 2) ≤ j ∧ j < m / 2 * (w / 2) + w / 2
        · obtain ⟨-, hq1, hq2⟩ := hC2
          rw [if_pos ⟨hm2, hq1, hq2⟩, if_pos (by omega)]
          have hA0 : 0 < w / 2 := by omega
          obtain ⟨r, hrj, hrlt⟩ : ∃ r, j = r + w / 2 * (m / 2) ∧ r < w / 2 :=
            ⟨j - m / 2 * (w / 2), by
              have hQ : w / 2 * (m / 2) = m / 2 * (w / 2) := Nat.mul_comm _ _
              omega, by omega⟩
          have hdiv : j / (w / 2) = m / 2 := by
            rw [hrj, Nat.add_mul_div_left _ _ hA0, Nat.div_eq_of_lt hrlt, Nat.zero_add]
          have hmod : j % (w / 2) = j - m / 2 * (w / 2) := by
            rw [hrj, Nat.add_mul_mod_self_left, Nat.mod_eq_of_lt hrlt]
            have hQ : w / 2 * (m / 2) = m / 2 * (w / 2) := Nat.mul_comm _ _
            omega
          congr 1
          rw [hdiv, hmod, show 2 * (m / 2) = m from by omega]
        · rw [if_neg (by tauto)]
          by_cases hC1 : j < m / 2 * (w / 2)
          · rw [if_pos hC1, if_pos (by omega)]
          · rw [if_neg hC1, if_neg (by omega)]
      · rw [if_neg (by omega), show (m + 1 + 1) / 2 = (m + 1) / 2 from by omega]

/-- Claim C7: for even dimensions, a `w*h*2`-byte YUYV source and an
exact-size destination, the conversion writes every luma sample at full
resolution (`out[i] = yuyv[2i]`), and each chroma plane entry `(r, c)`
holds the chroma byte of source row `2r` — even rows only, odd-row
chroma discarded; plus the literal 4×2 case of the spec. -/
theorem yuyv_to_i420_decimates_odd_row_chroma :
    (∀ (w h : ℕ) (yuyv dest : List ℕ),
      w % 2 = 0 → h % 2 = 0 →
      yuyv.length = w * h * 2 →
      dest.length = w * h + 2 * (w / 2) * (h / 2) →
      ∃ out, convert_yuyv_to_i420_direct yuyv w h dest = .ok out ∧
        out.length = dest.length ∧
        (∀ i, i < w * h → out[i]? = yuyv[2 * i]?) ∧
        (∀ r c, r < h / 2 → c < w / 2 →
          out[w * h + r * (w / 2) + c]? = yuyv[(2 * r * w + 2 * c) * 2 + 1]? ∧
          out[w * h + w / 2 * (h / 2) + r * (w / 2) + c]? =
            yuyv[(2 * r * w + 2 * c) * 2 + 3]?))
    ∧ (∀ Y0 U0 Y1 V0 Y2 U2 Y3 V2 Y4 U4 Y5 V4 Y6 U6 Y7 V6 : ℕ,
        convert_yuyv_to_i420_direct
          [Y0, U0, Y1, V0, Y2, U2, Y3, V2, Y4, U4, Y5, V4, Y6, U6, Y7, V6] 4 2
          (List.replicate 12 0)
        = .ok ([Y0, Y1, Y2, Y3, Y4, Y5, Y6, Y7] ++ [U0, U2] ++ [V0, V2])) := by
  constructor
  · intro w h yuyv dest hw hh hyl hdl
    have hprod : 2 * (w / 2) * (h / 2) = w / 2 * (h / 2) + w / 2 * (h / 2) := by ring
    unfold convert_yuyv_to_i420_direct
    rw [if_neg (by omega)]
    dsimp only
    have hsy : (dest.take (w * h)).length = w * h := by
      rw [List.length_take]; omega
    have hsu : ((dest.drop (w * h)).take ((dest.drop (w * h)).length / 2)).length
        = w / 2 * (h / 2) := by
      rw [List.length_take, List.length_drop]; omega
    have hsv : ((dest.drop (w * h)).drop ((dest.drop (w * h)).length / 2)).length
        = w / 2 * (h / 2) := by
      rw [List.length_drop, List.length_drop]; omega
    obtain ⟨t, ht, hty, htu, htv, hYc, hUc, hVc⟩ :=
      yuyvRows_ok yuyv w h hw hh hyl h (le_refl h)
        ⟨dest.take (w * h),
         (dest.drop (w * h)).take ((dest.drop (w * h)).length / 2),
         (dest.drop (w * h)).drop ((dest.drop (w * h)).length / 2)⟩
        hsy hsu hsv
    rw [ht]
    refine ⟨t.y ++ t.u ++ t.v, rfl, ?_, ?_, ?_⟩
    · rw [List.length_append, List.length_append, hty, htu, htv]
      omega
    · intro i hi
      have hwh : h * w = w * h := Nat.mul_comm h w
      rw [List.getElem?_append,
        if_pos (by rw [List.length_append, hty, htu]; omega),
        List.getElem?_append, if_pos (by rw [hty]; omega),
        getElem?_eq_some_getD t.y i (by omega),
        getElem?_eq_some_getD yuyv (2 * i) (by omega),
        hYc i, if_pos (by omega)]
    · intro r c hr hc
      have hA0 : 0 < w / 2 := by omega
      have hrc : r * (w / 2) + c < w / 2 * (h / 2) := by
        have h1 : (r + 1) * (w / 2) ≤ h / 2 * (w / 2) := mul_le_mul_right' (by omega) _
        have h2 : (r + 1) * (w / 2) = r * (w / 2) + w / 2 := by ring
        have h3 : h / 2 * (w / 2) = w / 2 * (h / 2) := Nat.mul_comm _ _
        omega
      have hb1 : 2 * r * w + w ≤ w * h := by
        calc 2 * r * w + w = (2 * r + 1) * w := by ring
          _ ≤ h * w := mul_le_mul_right' (by omega) w
          _ = w * h := Nat.mul_comm h w
      have h2c : 2 * c + 2 ≤ w := by omega
      have hdiv : (r * (w / 2) + c) / (w / 2) = r := by
        rw [show r * (w / 2) + c = c + w / 2 * r from by ring,
          Nat.add_mul_div_left _ _ hA0, Nat.div_eq_of_lt hc, Nat.zero_add]
      have hmod : (r * (w / 2) + c) % (w / 2) = c := by
        rw [show r * (w / 2) + c = c + w / 2 * r from by ring,
          Nat.add_mul_mod_self_left, Nat.mod_eq_of_lt hc]
      have hcond : r * (w / 2) + c < (h + 1) / 2 * (w / 2) := by
        rw [show (h + 1) / 2 = h / 2 from by omega]
        have h3 : h / 2 * (w / 2) = w / 2 * (h / 2) := Nat.mul_comm _ _
        omega
      constructor
      · rw [List.getElem?_append,
          if_pos (by rw [List.length_append, hty, htu]; omega),
          List.getElem?_append, if_neg (by rw [hty]; omega), hty,
          show w * h + r * (w / 2) + c - (w * h) = r * (w / 2) + c from by omega,
          getElem?_eq_some_getD t.u (r * (w / 2) + c) (by omega),
          getElem?_eq_some_getD yuyv ((2 * r * w + 2 * c) * 2 + 1) (by omega),
          hUc (r * (w / 2) + c), if_pos hcond]
        congr 2
        rw [hdiv, hmod]
      · rw [List.getElem?_append,
          if_neg (by rw [List.length_append, hty, htu]; omega),
          List.length_append, hty, htu,
          show w * h + w / 2 * (h / 2) + r * (w / 2) + c - (w * h + w / 2 * (h / 2))
            = r * (w / 2) + c from by omega,
          getElem?_eq_some_getD t.v (r * (w / 2) + c) (by omega),
          getElem?_eq_some_getD yuyv ((2 * r * w + 2 * c) * 2 + 3) (by omega),
          hVc (r * (w / 2) + c), if_pos hcond]
        congr 2
        rw [hdiv, hmod]
  · intro Y0 U0 Y1 V0 Y2 U2 Y3 V2 Y4 U4 Y5 V4 Y6 U6 Y7 V6
    rfl

/-- Witness for claim C7 at a concrete 4×2 frame: the first chroma
plane entries come from row 0 (`yuyv[1]`, `yuyv[3]`), not row 1. -/
theorem yuyv_to_i420_decimation_witness :
    ∃ out, convert_yuyv_to_i420_direct
        [10, 20, 11, 30, 12, 21, 13, 31, 14, 22, 15, 32, 16, 23, 17, 33] 4 2
        (List.replicate 12 0) = .ok out ∧
      out[8]? = some 20 ∧ out[10]? = some 30 := by
  obtain ⟨out, h1, h2, h3, h4⟩ := yuyv_to_i420_decimates_odd_row_chroma.1 4 2
    [10, 20, 11, 30, 12, 21, 13, 31, 14, 22, 15, 32, 16, 23, 17, 33]
    (List.replicate 12 0) rfl rfl rfl rfl
  obtain ⟨hu, hv⟩ := h4 0 0 (by omega) (by omega)
  refine ⟨out, h1, ?_, ?_⟩
  · simpa using hu
  · simpa using hv
